import Mathlib

/-!
# Verification of the `local-robot-map` crate's coordinate/grid model

This file gives a shallow embedding, in Lean 4, of the core of the
`local-robot-map` Rust crate (files `coords.rs`, `cell_map.rs`,
`local_map.rs`, `polygon_map.rs`, `lib.rs`) and proves the specified
properties of the coordinate transforms, the cell grid, the region
queries, the polygon rasterization pipeline and the robot placement
wrappers.

Modelling conventions:

* `f64` values are embedded as exact rationals (`ℚ`); the crate's
  arithmetic on coordinates is plain `+ - * /`, all exact here.
* Rust's fallible operations (`Result`) become `Except`; partial
  conversions such as `num::ToPrimitive::to_usize` become `Option`.
* The `ndarray::Array2` matrices become a row-major flat list together
  with the row/column counts (`Mat`), matching the standard layout used
  by `from_elem` / `from_shape_vec` in the crate.
* The repository snapshot contains two revisions of the coordinate API.
  `coords.rs` itself holds the older, resolution-free revision
  (`RealWorldLocation::into_internal(offset)`), which is translated
  verbatim below as `RealWorldLocation.into_internal`.  The callers in
  `cell_map.rs` and `polygon_map.rs`, however, are written against the
  later resolution-aware revision
  (`into_internal(offset, resolution) -> Result`); that revision is not
  part of the snapshot, so it is modelled from the specification's words
  (definitions marked `Modelled from the spec:`), and the grid and
  polygon code is translated against it.
-/

/-- Three dimensional coordinates (`Coords` in `coords.rs`), with `f64`
components embedded as exact rationals. -/
structure Coords where
  x : ℚ
  y : ℚ
  z : ℚ
deriving DecidableEq, Repr

/-- Componentwise addition, translated from `impl Add for Coords`. -/
instance : Add Coords :=
  ⟨fun a b => ⟨a.x + b.x, a.y + b.y, a.z + b.z⟩⟩

/-- Componentwise subtraction, translated from `impl Sub for Coords`. -/
instance : Sub Coords :=
  ⟨fun a b => ⟨a.x - b.x, a.y - b.y, a.z - b.z⟩⟩

/-- Distance along the `x` axis (`Coords::distance_x`). -/
def Coords.distance_x (a b : Coords) : ℚ := |b.x - a.x|

/-- Distance along the `y` axis (`Coords::distance_y`). -/
def Coords.distance_y (a b : Coords) : ℚ := |b.y - a.y|

/-- Per-axis resolution in cells per meter (`AxisResolution` in `coords.rs`). -/
structure AxisResolution where
  x : ℚ
  y : ℚ
  z : ℚ
deriving DecidableEq, Repr

/-- Same resolution on every axis (`AxisResolution::uniform`). -/
def AxisResolution.uniform (resolution : ℚ) : AxisResolution :=
  ⟨resolution, resolution, resolution⟩

/-- Caller-facing coordinates (`RealWorldLocation` in `coords.rs`). -/
structure RealWorldLocation where
  location : Coords
deriving DecidableEq, Repr

/-- Convenience constructor `RealWorldLocation::from_xyz`. -/
def RealWorldLocation.from_xyz (x y z : ℚ) : RealWorldLocation :=
  ⟨⟨x, y, z⟩⟩

def RealWorldLocation.x (p : RealWorldLocation) : ℚ := p.location.x

def RealWorldLocation.y (p : RealWorldLocation) : ℚ := p.location.y

def RealWorldLocation.z (p : RealWorldLocation) : ℚ := p.location.z

/-- Grid-relative coordinates of the older revision found in
`coords.rs`: the location paired with the offset it was produced with
(no resolution field). -/
structure InternalLocation where
  location : Coords
  offset : Coords
deriving DecidableEq, Repr

/-- Translated verbatim from `RealWorldLocation::into_internal` in the
snapshot's `coords.rs` (lines 183-185): subtract the offset
componentwise; there is no resolution parameter and no failure path. -/
def RealWorldLocation.into_internal (p : RealWorldLocation) (offset : Coords) :
    InternalLocation :=
  ⟨p.location - offset, offset⟩

/-- Translated from `InternalLocation::into_real_world` in the
snapshot's `coords.rs` (lines 227-229): add the stored offset back. -/
def InternalLocation.into_real_world (l : InternalLocation) : RealWorldLocation :=
  ⟨l.location + l.offset⟩

/-- Translated from `InternalLocation::change_offset` in the snapshot's
`coords.rs` (lines 238-240): round-trip through real-world coordinates. -/
def InternalLocation.change_offset (l : InternalLocation) (offset : Coords) :
    InternalLocation :=
  l.into_real_world.into_internal offset

/-- Grid-relative coordinates of the later, resolution-aware revision of
`coords.rs` used by `cell_map.rs` and `polygon_map.rs`.  Modelled from
the spec: an internal location is "always paired with the offset … and
the resolution used to produce it". -/
structure InternalLocationRes where
  location : Coords
  offset : Coords
  resolution : AxisResolution
deriving DecidableEq, Repr

/-- Modelled from the spec: the resolution-aware revision of
`RealWorldLocation::into_internal(offset, resolution)` missing from the
snapshot ("subtract offset componentwise, then scale x and y by
resolution.x/resolution.y respectively (z is offset-subtracted but not
scaled). Never fails."). -/
def RealWorldLocation.into_internal_res (p : RealWorldLocation)
    (offset : Coords) (resolution : AxisResolution) : InternalLocationRes :=
  ⟨⟨(p.x - offset.x) * resolution.x, (p.y - offset.y) * resolution.y,
    p.z - offset.z⟩, offset, resolution⟩

/-- Modelled from the spec: the resolution-aware revision of
`InternalLocation::into_real_world` missing from the snapshot ("divide
x/y by the stored resolution, then add the stored offset back"). -/
def InternalLocationRes.into_real_world (l : InternalLocationRes) :
    RealWorldLocation :=
  ⟨⟨l.location.x / l.resolution.x + l.offset.x,
    l.location.y / l.resolution.y + l.offset.y,
    l.location.z + l.offset.z⟩⟩

/-- Modelled from the spec: the resolution-aware revision of
`InternalLocation::change_offset` missing from the snapshot ("re-anchor
to a different offset; implemented by round-tripping through real-world
coordinates (`into_real_world().into_internal(new_offset,
same_resolution)`), never by adjusting the stored offset directly"). -/
def InternalLocationRes.change_offset (l : InternalLocationRes)
    (offset : Coords) : InternalLocationRes :=
  l.into_real_world.into_internal_res offset l.resolution

/-- Cell labels (`MapState` in `lib.rs`; `LocationType` is its alias). -/
inductive LocationType where
  | OutOfMap
  | OtherRobot
  | MyRobot
  | Explored
  | Unexplored
  | Frontier
  | Assigned
deriving DecidableEq, Repr, Inhabited, BEq

/-- Location access error (`LocationError` in `lib.rs`, lines 286-290);
`OutOfMap` is its only variant. -/
inductive LocationError where
  | OutOfMap
deriving DecidableEq, Repr

/-- Row-major 2D array, embedding `ndarray::Array2` in its standard
layout: the element at `(row, col)` lives at flat index
`row * ncols + col` of `data`. -/
structure Mat (α : Type) where
  nrows : ℕ
  ncols : ℕ
  data : List α
deriving DecidableEq, Repr

/-- Element lookup `m[[row, col]]` on the flat row-major buffer. -/
def Mat.get [Inhabited α] (m : Mat α) (row col : ℕ) : α :=
  m.data.getD (row * m.ncols + col) default

/-- Embeds `Array2::from_elem((nrows, ncols), v)`. -/
def Mat.from_elem (nrows ncols : ℕ) (v : α) : Mat α :=
  ⟨nrows, ncols, List.replicate (nrows * ncols) v⟩

/-- Embeds `Array2::map`. -/
def Mat.map (m : Mat α) (f : α → β) : Mat β :=
  ⟨m.nrows, m.ncols, m.data.map f⟩

/-- Embeds `Array2::indexed_iter`, which yields `((row, col), value)`
pairs in row-major (memory) order for a standard-layout array. -/
def Mat.indexed_iter [Inhabited α] (m : Mat α) : List ((ℕ × ℕ) × α) :=
  (List.range (m.nrows * m.ncols)).map
    (fun i => ((i / m.ncols, i % m.ncols), m.data.getD i default))

/-- Write one element at `(row, col)`; out-of-range writes are no-ops,
mirroring that the crate only writes through bounds-checked indices. -/
def Mat.set (m : Mat α) (row col : ℕ) (v : α) : Mat α :=
  ⟨m.nrows, m.ncols, m.data.set (row * m.ncols + col) v⟩

/-- Build a matrix from an element function, row-major (used to embed
the external rasterizer's output grid). -/
def Mat.ofFn (nrows ncols : ℕ) (f : ℕ → ℕ → α) : Mat α :=
  ⟨nrows, ncols, (List.range nrows).flatMap (fun r => (List.range ncols).map (f r))⟩

/-- Alias `MapStateMatrix = Array2<LocationType>` from `lib.rs`. -/
abbrev MapStateMatrix := Mat LocationType

/-- Embeds `num::ToPrimitive::to_usize` on a finite `f64`: truncate
toward zero and fail on values at or below `-1` (values in `(-1, 0]`
truncate to `0`).  The `usize::MAX` upper bound is not modelled; the
embedded quantities stay far below it. -/
def f64_to_usize (q : ℚ) : Option ℕ :=
  if (-1 : ℚ) < q then some (Int.toNat ⌊q⌋) else none

/-- The 2D grid of cells (`CellMap` in `cell_map.rs`). -/
structure CellMap where
  cells : MapStateMatrix
  resolution : AxisResolution
  offset : Coords
deriving DecidableEq, Repr

/-- Translated from `CellMap::from_raster`: direct injection, no checks. -/
def CellMap.from_raster (cells : MapStateMatrix) (resolution : AxisResolution)
    (offset : Coords) : CellMap :=
  ⟨cells, resolution, offset⟩

def CellMap.ncols (m : CellMap) : ℕ := m.cells.ncols

def CellMap.nrows (m : CellMap) : ℕ := m.cells.nrows

def CellMap.width (m : CellMap) : ℕ := m.ncols

def CellMap.height (m : CellMap) : ℕ := m.nrows

/-- Translated from `CellMap::new` (lines 90-115): `columns` and `rows`
are the per-axis distances scaled by the resolution and converted with
`to_usize` (truncation); the offset is the componentwise minimum of the
two corners.  The `expect` on the conversions is modelled by `Option`. -/
def CellMap.new (point1 point2 : RealWorldLocation)
    (resolution : AxisResolution) : Option CellMap :=
  let columns := Coords.distance_x point1.location point2.location * resolution.x
  let rows := Coords.distance_y point1.location point2.location * resolution.y
  let offset : Coords :=
    ⟨min point1.x point2.x, min point1.y point2.y, min point1.z point2.z⟩
  match f64_to_usize rows, f64_to_usize columns with
  | some nrows, some ncols =>
      some ⟨Mat.from_elem nrows ncols LocationType.Unexplored, resolution, offset⟩
  | _, _ => none

/-- Translated from `CellMap::location_to_map_index` (lines 158-184).
The source first converts through the missing resolution-aware
`into_internal(offset, resolution)`, propagating its error, then floors
x/y and converts them with `to_usize` (whose `expect` would reject a
negative index), then bounds-checks against width/height.  Following
spec §4.2 ("take floor of the resulting x (→ column) and y (→ row); if
either floored index is negative-producing-as-unsigned-overflow or ≥
the grid's width/height respectively, fail with OutOfMap"), the missing
revision's below-offset error and the negative-floor rejection are
realized here as a signed check on the floored indices; for a positive
resolution the observable result is the same `Err(OutOfMap)`. -/
def CellMap.location_to_map_index (m : CellMap) (location : RealWorldLocation) :
    Except LocationError (ℕ × ℕ) :=
  let coord := location.into_internal_res m.offset m.resolution
  let colZ : ℤ := ⌊coord.location.x⌋
  let rowZ : ℤ := ⌊coord.location.y⌋
  if colZ < 0 ∨ rowZ < 0 then .error .OutOfMap
  else
    let col : ℕ := colZ.toNat
    let row : ℕ := rowZ.toNat
    if m.width ≤ col ∨ m.height ≤ row then .error .OutOfMap
    else .ok (row, col)

/-- Translated from `Location::get_location` for `CellMap`. -/
def CellMap.get_location (m : CellMap) (coord : RealWorldLocation) :
    Except LocationError LocationType :=
  (m.location_to_map_index coord).map (fun rc => m.cells.get rc.1 rc.2)

/-- Translated from `Location::set_location` for `CellMap` (the in-place
mutation becomes returning the updated map). -/
def CellMap.set_location (m : CellMap) (coord : RealWorldLocation)
    (value : LocationType) : Except LocationError CellMap :=
  (m.location_to_map_index coord).map
    (fun rc => { m with cells := m.cells.set rc.1 rc.2 value })

/-- Perform `set_location` and keep the map unchanged if it fails with
`OutOfMap` (the only `LocationError` variant).  This is the shared shape
of the tolerant placement loop in `local_map.rs` (lines 113-131) and of
the `expect` on the pre-filtered writes in `polygon_map.rs` (line 154),
where the error branch cannot be reached. -/
def CellMap.set_location_or_skip (m : CellMap) (coord : RealWorldLocation)
    (value : LocationType) : CellMap :=
  match m.set_location coord value with
  | .ok m' => m'
  | .error .OutOfMap => m

/-- Query result (`Cell` in `cell_map.rs`): the reconstructed real-world
location of a cell together with its label. -/
structure Cell where
  location : RealWorldLocation
  value : LocationType
deriving DecidableEq, Repr

/-- Translated from `Cell::new`: converts the internal location of the
cell back to real-world coordinates. -/
def Cell.new (location : InternalLocationRes) (value : LocationType) : Cell :=
  ⟨location.into_real_world, value⟩

/-- Translated from `impl Mask for CellMap::get_map_region` (lines
226-251): iterate the cells with `indexed_iter`, keep those whose label
passes the filter, and rebuild each one's real-world location from
`(col, row, 0)`, the grid's offset and its resolution.  The fallible
3-argument `InternalLocation::new` of the missing revision is always
given non-negative indices here (its `expect` cannot fire), so it is
modelled by the plain constructor. -/
def CellMap.get_map_region (m : CellMap) (filter : LocationType → Bool) :
    List Cell :=
  ((m.cells.indexed_iter.filter (fun x => filter x.2)).map
    (fun x =>
      Cell.new ⟨⟨(x.1.2 : ℚ), (x.1.1 : ℚ), 0⟩, m.offset, m.resolution⟩ x.2))

/-- Translated from the blanket `impl MaskMapState` in `lib.rs` (lines
149-153): `get_map_state(state) = get_map_region(|e| e == state)`. -/
def CellMap.get_map_state (m : CellMap) (state : LocationType) : List Cell :=
  m.get_map_region (fun e => e == state)

/-- The fixed 5×3 grid of `cell_map.rs`'s `make_map` test fixture
(offset `(0,0,0)`, uniform resolution 1). -/
def seedMap : CellMap :=
  CellMap.from_raster
    ⟨5, 3,
      [.OutOfMap, .OtherRobot, .MyRobot,
       .Frontier, .Unexplored, .Explored,
       .Assigned, .OutOfMap, .OtherRobot,
       .MyRobot, .Unexplored, .Assigned,
       .Unexplored, .Explored, .Frontier]⟩
    (AxisResolution.uniform 1) ⟨0, 0, 0⟩

/-- Robot position plus caller-chosen parameters (`Robot<P>` in
`local_map.rs`). -/
structure Robot (P : Type) where
  location : RealWorldLocation
  parameters : P

/-- Map stored locally on a robot (`LocalMap<T, P>` in `local_map.rs`),
instantiated at `T = CellMap` as in the crate's own tests. -/
structure LocalMap (P : Type) where
  map : CellMap
  my_robot : Robot P
  other_robots : List (Robot P)

def LocalMap.my_position (l : LocalMap P) : RealWorldLocation :=
  l.my_robot.location

def LocalMap.other_positions (l : LocalMap P) : List RealWorldLocation :=
  l.other_robots.map (fun r => r.location)

/-- The placement loop of `LocalMap::new_noexpand` (lines 83-89): stamp
`OtherRobot` at each position in order, aborting on the first failure
with the offending robot's coordinate. -/
def LocalMap.stamp_others {P : Type} :
    CellMap → List (Robot P) →
      Except (LocationError × RealWorldLocation) CellMap
  | m, [] => .ok m
  | m, r :: rs =>
      match m.set_location r.location .OtherRobot with
      | .error e => .error (e, r.location)
      | .ok m' => stamp_others m' rs

/-- Translated from `LocalMap::new_noexpand` (lines 72-96): stamp
`MyRobot` at the designated position, then `OtherRobot` at each listed
position in order; the first failing placement aborts the construction
with the error and the offending coordinate. -/
def LocalMap.new_noexpand (map : CellMap) (my_robot : Robot P)
    (other_robots : List (Robot P)) :
    Except (LocationError × RealWorldLocation) (LocalMap P) :=
  match map.set_location my_robot.location .MyRobot with
  | .error e => .error (e, my_robot.location)
  | .ok m1 =>
      match LocalMap.stamp_others m1 other_robots with
      | .error e => .error e
      | .ok m2 => .ok ⟨m2, my_robot, other_robots⟩

/-- Translated from `LocalMap::new_noexpand_nooutofmap` (lines 108-138):
identical to `new_noexpand` except an `OutOfMap` placement failure is
silently skipped.  Since `OutOfMap` is the only `LocationError` variant,
the source's remaining error arm (`_ => return Err(..)`, marked
`#[allow(unreachable_patterns)]`) is dead code and has no counterpart
here; the declared result type keeps the source signature's error
component. -/
def LocalMap.new_noexpand_nooutofmap (map : CellMap) (my_robot : Robot P)
    (other_robots : List (Robot P)) :
    Except (LocationError × RealWorldLocation) (LocalMap P) :=
  let m1 := map.set_location_or_skip my_robot.location .MyRobot
  let m2 := other_robots.foldl
    (fun acc r => acc.set_location_or_skip r.location .OtherRobot) m1
  .ok ⟨m2, my_robot, other_robots⟩

/-- Polygon construction error (`PolygonMapError` in `polygon_map.rs`). -/
inductive PolygonMapError where
  | NotEnoughVertices
deriving DecidableEq, Repr

/-- Map described by a polygon (`PolygonMap` in `polygon_map.rs`). -/
structure PolygonMap where
  vertices : List RealWorldLocation
  explored : Option (List (List RealWorldLocation))
deriving DecidableEq, Repr

/-- Translated from `PolygonMap::verify_polygon` (lines 94-102). -/
def PolygonMap.verify_polygon (vertices : List RealWorldLocation) :
    Except PolygonMapError (List RealWorldLocation) :=
  if vertices.length < 3 then .error .NotEnoughVertices else .ok vertices

/-- Translated from `PolygonMap::new` (lines 51-58). -/
def PolygonMap.new (vertices : List RealWorldLocation) :
    Except PolygonMapError PolygonMap :=
  (PolygonMap.verify_polygon vertices).map (fun v => ⟨v, none⟩)

/-- The validation loop of `PolygonMap::new_explored` (lines 76-80):
check each explored sub-region in turn, propagating the first error. -/
def PolygonMap.verify_explored :
    List (List RealWorldLocation) → Except PolygonMapError Unit
  | [] => .ok ()
  | p :: ps =>
      match PolygonMap.verify_polygon p with
      | .error e => .error e
      | .ok _ => verify_explored ps

/-- Translated from `PolygonMap::new_explored` (lines 65-86): validate
every explored sub-region, then validate the main vertex list and store
both unchanged. -/
def PolygonMap.new_explored (vertices : List RealWorldLocation)
    (explored : Option (List (List RealWorldLocation))) :
    Except PolygonMapError PolygonMap :=
  match explored with
  | some e =>
      match PolygonMap.verify_explored e with
      | .error err => .error err
      | .ok _ => (PolygonMap.verify_polygon vertices).map (fun v => ⟨v, explored⟩)
  | none => (PolygonMap.verify_polygon vertices).map (fun v => ⟨v, explored⟩)

/-- Axis-aligned bounding box `(min x, min y, max x, max y)` of a vertex
list, embedding `geo`'s `bounding_rect`, which is empty only for an
empty vertex list (the `rasterize_polygon` source treats that case as a
fatal error). -/
def polygon_bbox (vertices : List RealWorldLocation) :
    Option (ℚ × ℚ × ℚ × ℚ) :=
  match vertices with
  | [] => none
  | v :: rest =>
      some (rest.foldl
        (fun acc w =>
          (min acc.1 w.x, min acc.2.1 w.y, max acc.2.2.1 w.x, max acc.2.2.2 w.y))
        (v.x, v.y, v.x, v.y))

/-- The vertex transformation inside `rasterize_polygon` (lines
201-210): re-express every vertex in internal coordinates relative to
the bounding box's minimum corner (only x and y are used downstream). -/
def internal_vertices (vertices : List RealWorldLocation) (offset : Coords)
    (resolution : AxisResolution) : List (ℚ × ℚ) :=
  vertices.map (fun v =>
    let il := v.into_internal_res offset resolution
    (il.location.x, il.location.y))

/-- Translated from `PolygonMap::rasterize_polygon` (lines 181-223),
parameterized by the external rasterizer's membership test `inside`
(spec §4.4: "any correct polygon-fill algorithm is acceptable — the
membership test, not its algorithm, is the contract").  The bounding box
is taken over the vertices, its minimum corner becomes the offset, the
raster dimensions are the box's width/height scaled by the resolution
and truncated via `to_usize`, and the output grid holds the membership
of every cell of the transformed polygon. -/
def rasterize_polygon (inside : List (ℚ × ℚ) → ℕ → ℕ → Bool)
    (vertices : List RealWorldLocation) (resolution : AxisResolution) :
    Option (Mat Bool × Coords) :=
  match polygon_bbox vertices with
  | none => none
  | some (minx, miny, maxx, maxy) =>
      let offset : Coords := ⟨minx, miny, 0⟩
      let width := (maxx - minx) * resolution.x
      let height := (maxy - miny) * resolution.y
      let poly := internal_vertices vertices offset resolution
      match f64_to_usize width, f64_to_usize height with
      | some w, some h => some (Mat.ofFn h w (fun row col => inside poly row col), offset)
      | _, _ => none

/-- The `explored_locations` list built inside `PolygonMap::to_cell_map`
(lines 126-149): the inside cells of a rasterized explored sub-polygon,
converted back to real-world locations via the sub-polygon's own offset,
keeping only those the current grid can address
(`get_location(..).is_ok()`). -/
def explored_locations (cells_explored : Mat Bool) (offset_explored : Coords)
    (resolution : AxisResolution) (cellmap : CellMap) :
    List RealWorldLocation :=
  ((cells_explored.indexed_iter.filter (fun x => x.2)).map
    (fun x =>
      InternalLocationRes.into_real_world
        ⟨⟨(x.1.2 : ℚ), (x.1.1 : ℚ), 0⟩, offset_explored, resolution⟩)).filter
    (fun location => (cellmap.get_location location).isOk)

/-- The explored-region overwrite loop of `PolygonMap::to_cell_map`
(lines 122-157): rasterize each explored sub-polygon with its own
bounding box, compute its `explored_locations`, and overwrite each one
to `Explored`.  The `expect` on these pre-filtered writes cannot fire;
it is modelled by `set_location_or_skip`. -/
def PolygonMap.stamp_explored (inside : List (ℚ × ℚ) → ℕ → ℕ → Bool)
    (resolution : AxisResolution) :
    List (List RealWorldLocation) → CellMap → Option CellMap
  | [], cellmap => some cellmap
  | polygon :: rest, cellmap =>
      match rasterize_polygon inside polygon resolution with
      | none => none
      | some (cells_explored, offset_explored) =>
          stamp_explored inside resolution rest
            ((explored_locations cells_explored offset_explored resolution
                cellmap).foldl
              (fun m location => m.set_location_or_skip location .Explored) cellmap)

/-- Translated from `PolygonMap::to_cell_map` (lines 112-160),
parameterized by the external rasterizer's membership test: rasterize
the main polygon, map inside cells to `Unexplored` and outside cells to
`OutOfMap`, then overwrite the explored sub-regions. -/
def PolygonMap.to_cell_map (inside : List (ℚ × ℚ) → ℕ → ℕ → Bool)
    (pm : PolygonMap) (resolution : AxisResolution) : Option CellMap :=
  match rasterize_polygon inside pm.vertices resolution with
  | none => none
  | some (bcells, offset) =>
      let cellmap := CellMap.from_raster
        (bcells.map (fun e => if e then LocationType.Unexplored else LocationType.OutOfMap))
        resolution offset
      match pm.explored with
      | none => some cellmap
      | some explored => PolygonMap.stamp_explored inside resolution explored cellmap

/-- Reference form of `get_map_region` written from the spec's words
(§4.3): scan the grid in row-major order — row 0 first, within a row
column 0 first — keep the cells passing the predicate, and reconstruct
each one's real-world location from `(col, row, 0)`, the grid's offset
and resolution. -/
def getMapRegionSpec (m : CellMap) (filter : LocationType → Bool) : List Cell :=
  (List.range m.nrows).flatMap (fun row =>
    ((List.range m.ncols).filter (fun col => filter (m.cells.get row col))).map
      (fun (col : ℕ) =>
        Cell.new ⟨⟨(col : ℚ), (row : ℚ), 0⟩, m.offset, m.resolution⟩
          (m.cells.get row col)))

/-- Written from the claim's words: cell `(row, col)` of the main grid
gets overwritten to `Explored` exactly when some polygon of the explored
list has an inside raster cell whose reconstructed real-world location
the main grid can address at `(row, col)` (`get_location` succeeds
there); all other reconstructed locations are dropped. -/
def cellWritten (inside : List (ℚ × ℚ) → ℕ → ℕ → Bool)
    (polys : List (List RealWorldLocation)) (resolution : AxisResolution)
    (m : CellMap) (row col : ℕ) : Prop :=
  ∃ polygon ∈ polys, ∃ bce offe,
    rasterize_polygon inside polygon resolution = some (bce, offe) ∧
    ∃ r' c', r' < bce.nrows ∧ c' < bce.ncols ∧ bce.get r' c' = true ∧
      m.location_to_map_index
        (InternalLocationRes.into_real_world ⟨⟨(c' : ℚ), (r' : ℚ), 0⟩, offe, resolution⟩)
        = .ok (row, col)

/-- Reference form of `new_noexpand` written from the claim's words: the
first position in the sequence "my robot, then the other robots in list
order" that the grid cannot address aborts the construction with
`OutOfMap` paired with that exact coordinate; if every position is
addressable, all stamps are applied in order. -/
def newNoexpandSpec (map : CellMap) (my_robot : Robot P)
    (other_robots : List (Robot P)) :
    Except (LocationError × RealWorldLocation) (LocalMap P) :=
  match (my_robot.location :: other_robots.map (fun r => r.location)).find?
      (fun l => !(map.location_to_map_index l).isOk) with
  | some l => .error (.OutOfMap, l)
  | none =>
      .ok ⟨other_robots.foldl
            (fun acc r => acc.set_location_or_skip r.location .OtherRobot)
            (map.set_location_or_skip my_robot.location .MyRobot),
          my_robot, other_robots⟩

/-! ## Basic unfolding lemmas -/

theorem Coords.add_def (a b : Coords) :
    a + b = ⟨a.x + b.x, a.y + b.y, a.z + b.z⟩ := rfl

theorem Coords.sub_def (a b : Coords) :
    a - b = ⟨a.x - b.x, a.y - b.y, a.z - b.z⟩ := rfl

/-- Round trip of the older, resolution-free coordinate API: it only
adds back the offset that was subtracted. -/
theorem into_internal_into_real_world (p : RealWorldLocation) (o : Coords) :
    (p.into_internal o).into_real_world = p := by
  cases p with
  | mk loc =>
    cases loc
    simp [RealWorldLocation.into_internal, InternalLocation.into_real_world,
      Coords.add_def, Coords.sub_def]

/-- Round trip of the resolution-aware coordinate API: dividing the
scaled components by a nonzero resolution and adding the offset back
recovers the original coordinates exactly. -/
theorem into_internal_res_into_real_world (p : RealWorldLocation) (o : Coords)
    (r : AxisResolution) (hx : r.x ≠ 0) (hy : r.y ≠ 0) :
    (p.into_internal_res o r).into_real_world = p := by
  cases p with
  | mk loc =>
    cases loc
    simp only [RealWorldLocation.into_internal_res,
      InternalLocationRes.into_real_world, RealWorldLocation.x,
      RealWorldLocation.y, RealWorldLocation.z, RealWorldLocation.mk.injEq,
      Coords.mk.injEq]
    refine ⟨?_, ?_, by ring⟩
    · field_simp
    · field_simp

theorem change_offset_into_real_world (l : InternalLocation) (o : Coords) :
    (l.change_offset o).into_real_world = l.into_real_world := by
  simp [InternalLocation.change_offset, into_internal_into_real_world]

theorem change_offset_res_resolution (l : InternalLocationRes) (o : Coords) :
    (l.change_offset o).resolution = l.resolution := rfl

theorem change_offset_res_into_real_world (l : InternalLocationRes)
    (o : Coords) (hx : l.resolution.x ≠ 0) (hy : l.resolution.y ≠ 0) :
    (l.change_offset o).into_real_world = l.into_real_world := by
  simp [InternalLocationRes.change_offset,
    into_internal_res_into_real_world _ _ _ hx hy]

/-! ## C1 -/

/-- C1: the claim states that `into_internal` scales the
offset-subtracted x component by `resolution.x`; the revision of
`RealWorldLocation::into_internal` present in the snapshot's `coords.rs`
takes no resolution at all and only subtracts the offset, so at the
failing input `p = (1,0,0)`, `offset = (0,0,0)`, `resolution = (2,2,2)`
the code produces internal x `1` while the claim requires
`(1 - 0) * 2 = 2`. -/
theorem into_internal_snapshot_does_not_scale :
    ((RealWorldLocation.from_xyz 1 0 0).into_internal ⟨0, 0, 0⟩).location.x = 1 ∧
    ((RealWorldLocation.from_xyz 1 0 0).x - (0 : ℚ)) * (2 : ℚ) = 2 ∧
    (1 : ℚ) ≠ 2 := by
  refine ⟨?_, ?_, by norm_num⟩
  · simp [RealWorldLocation.into_internal, RealWorldLocation.from_xyz,
      Coords.sub_def]
  · simp [RealWorldLocation.x, RealWorldLocation.from_xyz]

/-! ## C2 -/

/-- C2: converting a location to internal coordinates and back yields
exactly the original location.  The first conjunct settles it for the
revision in the snapshot's `coords.rs` (offset-only, no resolution
parameter, no side condition); the second settles it for the
resolution-aware revision modelled from the spec, for every resolution
with nonzero x/y factors (the data model requires positive ones). -/
theorem into_internal_round_trip :
    (∀ (p : RealWorldLocation) (o : Coords),
      (p.into_internal o).into_real_world = p) ∧
    (∀ (p : RealWorldLocation) (o : Coords) (r : AxisResolution),
      r.x ≠ 0 → r.y ≠ 0 → (p.into_internal_res o r).into_real_world = p) :=
  ⟨into_internal_into_real_world,
   fun p o r hx hy => into_internal_res_into_real_world p o r hx hy⟩

/-- Witness for C2 at `p = (1,2,3)`, `o = (4,5,6)`, `r = (2,2,2)`. -/
theorem into_internal_round_trip_witness :
    (2 : ℚ) ≠ 0 ∧
    ((RealWorldLocation.from_xyz 1 2 3).into_internal_res ⟨4, 5, 6⟩
        ⟨2, 2, 2⟩).into_real_world = RealWorldLocation.from_xyz 1 2 3 :=
  ⟨by norm_num,
   into_internal_round_trip.2 (RealWorldLocation.from_xyz 1 2 3) ⟨4, 5, 6⟩
     ⟨2, 2, 2⟩ (by norm_num) (by norm_num)⟩

/-! ## C5 -/

/-- C5: re-anchoring an internal location any number of times and then
converting back to real-world coordinates recovers the original
location exactly.  The first conjunct settles it for the revision in the
snapshot's `coords.rs`; the second for the resolution-aware revision
modelled from the spec (which re-anchors by round-tripping through
real-world coordinates with the stored resolution), for nonzero x/y
resolution factors. -/
theorem change_offset_round_trip :
    (∀ (p : RealWorldLocation) (o1 : Coords) (os : List Coords),
      ((os.foldl InternalLocation.change_offset
          (p.into_internal o1)).into_real_world) = p) ∧
    (∀ (p : RealWorldLocation) (o1 : Coords) (r : AxisResolution)
        (os : List Coords), r.x ≠ 0 → r.y ≠ 0 →
      ((os.foldl InternalLocationRes.change_offset
          (p.into_internal_res o1 r)).into_real_world) = p) := by
  constructor
  · intro p o1 os
    suffices h : ∀ (l : InternalLocation),
        ((os.foldl InternalLocation.change_offset l).into_real_world)
          = l.into_real_world by
      rw [h, into_internal_into_real_world]
    induction os with
    | nil => intro l; rfl
    | cons o os ih =>
      intro l
      simpa [change_offset_into_real_world] using ih (l.change_offset o)
  · intro p o1 r os hx hy
    suffices h : ∀ (l : InternalLocationRes), l.resolution = r →
        ((os.foldl InternalLocationRes.change_offset l).into_real_world)
          = l.into_real_world by
      rw [h _ rfl, into_internal_res_into_real_world _ _ _ hx hy]
    induction os with
    | nil => intro l _; rfl
    | cons o os ih =>
      intro l hl
      have h1 : (l.change_offset o).resolution = r := by
        rw [change_offset_res_resolution, hl]
      have h2 := ih (l.change_offset o) h1
      rw [List.foldl_cons, h2,
        change_offset_res_into_real_world _ _ (by rw [hl]; exact hx)
          (by rw [hl]; exact hy)]

/-- Witness for C5 at `p = (1,2,3)`, `o1 = (4,5,6)`, `r = (2,2,2)` and
two successive re-anchorings. -/
theorem change_offset_round_trip_witness :
    (2 : ℚ) ≠ 0 ∧
    (([⟨9, 9, 9⟩, ⟨-1, 0, 1⟩] : List Coords).foldl
        InternalLocationRes.change_offset
        ((RealWorldLocation.from_xyz 1 2 3).into_internal_res ⟨4, 5, 6⟩
          ⟨2, 2, 2⟩)).into_real_world = RealWorldLocation.from_xyz 1 2 3 :=
  ⟨by norm_num,
   change_offset_round_trip.2 (RealWorldLocation.from_xyz 1 2 3) ⟨4, 5, 6⟩
     ⟨2, 2, 2⟩ [⟨9, 9, 9⟩, ⟨-1, 0, 1⟩] (by norm_num) (by norm_num)⟩

/-! ## C8 -/

theorem verify_explored_ok_iff (e : List (List RealWorldLocation)) :
    PolygonMap.verify_explored e = .ok () ↔ ∀ l ∈ e, 3 ≤ l.length := by
  induction e with
  | nil => simp [PolygonMap.verify_explored]
  | cons p ps ih =>
    simp only [PolygonMap.verify_explored, PolygonMap.verify_polygon]
    split_ifs with h
    · refine iff_of_false (by simp) (fun hall => ?_)
      exact absurd (hall p (List.mem_cons_self p ps)) (by omega)
    · rw [ih]
      constructor
      · intro hall l hl
        rcases List.mem_cons.mp hl with rfl | hl
        · omega
        · exact hall l hl
      · intro hall l hl
        exact hall l (List.mem_cons_of_mem p hl)

theorem verify_explored_error_iff (e : List (List RealWorldLocation)) :
    PolygonMap.verify_explored e = .error .NotEnoughVertices ↔
      ∃ l ∈ e, l.length < 3 := by
  induction e with
  | nil => simp [PolygonMap.verify_explored]
  | cons p ps ih =>
    simp only [PolygonMap.verify_explored, PolygonMap.verify_polygon]
    split_ifs with h
    · exact iff_of_true rfl ⟨p, List.mem_cons_self p ps, h⟩
    · rw [ih]
      constructor
      · rintro ⟨l, hl, hlen⟩
        exact ⟨l, List.mem_cons_of_mem p hl, hlen⟩
      · rintro ⟨l, hl, hlen⟩
        rcases List.mem_cons.mp hl with rfl | hl
        · omega
        · exact ⟨l, hl, hlen⟩

theorem polygon_new_short (vs : List RealWorldLocation) (h : vs.length < 3) :
    PolygonMap.new vs = .error .NotEnoughVertices := by
  simp [PolygonMap.new, PolygonMap.verify_polygon, if_pos h, Except.map]

theorem polygon_new_long (vs : List RealWorldLocation) (h : ¬ vs.length < 3) :
    PolygonMap.new vs = .ok ⟨vs, none⟩ := by
  simp [PolygonMap.new, PolygonMap.verify_polygon, if_neg h, Except.map]

theorem new_explored_none_short (vs : List RealWorldLocation)
    (h : vs.length < 3) :
    PolygonMap.new_explored vs none = .error .NotEnoughVertices := by
  simp [PolygonMap.new_explored, PolygonMap.verify_polygon, if_pos h, Except.map]

theorem new_explored_none_long (vs : List RealWorldLocation)
    (h : ¬ vs.length < 3) :
    PolygonMap.new_explored vs none = .ok ⟨vs, none⟩ := by
  simp [PolygonMap.new_explored, PolygonMap.verify_polygon, if_neg h, Except.map]

theorem new_explored_some_bad (vs : List RealWorldLocation)
    (e : List (List RealWorldLocation))
    (he : PolygonMap.verify_explored e = .error .NotEnoughVertices) :
    PolygonMap.new_explored vs (some e) = .error .NotEnoughVertices := by
  simp [PolygonMap.new_explored, he]

theorem new_explored_some_short (vs : List RealWorldLocation)
    (e : List (List RealWorldLocation))
    (he : PolygonMap.verify_explored e = .ok ()) (h : vs.length < 3) :
    PolygonMap.new_explored vs (some e) = .error .NotEnoughVertices := by
  simp [PolygonMap.new_explored, he, PolygonMap.verify_polygon, if_pos h,
    Except.map]

theorem new_explored_some_long (vs : List RealWorldLocation)
    (e : List (List RealWorldLocation))
    (he : PolygonMap.verify_explored e = .ok ()) (h : ¬ vs.length < 3) :
    PolygonMap.new_explored vs (some e) = .ok ⟨vs, some e⟩ := by
  simp [PolygonMap.new_explored, he, PolygonMap.verify_polygon, if_neg h,
    Except.map]

/-- C8: `PolygonMap::new` and `PolygonMap::new_explored` return the
error `NotEnoughVertices` — returned as a value, never a panic, which
the embedding reflects by the constructors being total functions into
`Except` — exactly when the main vertex list or one of the explored
sub-region lists has fewer than 3 vertices, and otherwise succeed with
all vertex lists stored unchanged. -/
theorem polygon_map_vertex_validation :
    ∀ (vs : List RealWorldLocation)
      (exp : Option (List (List RealWorldLocation))),
      (PolygonMap.new vs = .error .NotEnoughVertices ↔ vs.length < 3) ∧
      (PolygonMap.new vs = .ok ⟨vs, none⟩ ↔ 3 ≤ vs.length) ∧
      (PolygonMap.new_explored vs exp = .error .NotEnoughVertices ↔
        vs.length < 3 ∨ ∃ l ∈ exp.getD [], l.length < 3) ∧
      (PolygonMap.new_explored vs exp = .ok ⟨vs, exp⟩ ↔
        3 ≤ vs.length ∧ ∀ l ∈ exp.getD [], 3 ≤ l.length) := by
  intro vs exp
  refine ⟨?_, ?_, ?_, ?_⟩
  · by_cases hv : vs.length < 3
    · exact iff_of_true (polygon_new_short vs hv) hv
    · refine iff_of_false (fun hc => ?_) hv
      rw [polygon_new_long vs hv] at hc
      exact Except.noConfusion hc
  · by_cases hv : vs.length < 3
    · refine iff_of_false (fun hc => ?_) (by omega)
      rw [polygon_new_short vs hv] at hc
      exact Except.noConfusion hc
    · exact iff_of_true (polygon_new_long vs hv) (by omega)
  · cases exp with
    | none =>
      by_cases hv : vs.length < 3
      · refine iff_of_true (new_explored_none_short vs hv) (Or.inl hv)
      · refine iff_of_false (fun hc => ?_) ?_
        · rw [new_explored_none_long vs hv] at hc
          exact Except.noConfusion hc
        · rintro (h | ⟨l, hl, _⟩)
          · omega
          · simp at hl
    | some e =>
      by_cases he : ∃ l ∈ e, l.length < 3
      · have herr := (verify_explored_error_iff e).mpr he
        exact iff_of_true (new_explored_some_bad vs e herr)
          (Or.inr (by simpa using he))
      · have hok : PolygonMap.verify_explored e = .ok () := by
          cases h2 : PolygonMap.verify_explored e with
          | error err =>
            cases err
            exact absurd ((verify_explored_error_iff e).mp h2) he
          | ok u => cases u; rfl
        by_cases hv : vs.length < 3
        · exact iff_of_true (new_explored_some_short vs e hok hv) (Or.inl hv)
        · refine iff_of_false (fun hc => ?_) ?_
          · rw [new_explored_some_long vs e hok hv] at hc
            exact Except.noConfusion hc
          · rintro (h | hex)
            · omega
            · exact he (by simpa using hex)
  · cases exp with
    | none =>
      by_cases hv : vs.length < 3
      · refine iff_of_false (fun hc => ?_) (fun h => by omega)
        rw [new_explored_none_short vs hv] at hc
        exact Except.noConfusion hc
      · refine iff_of_true (new_explored_none_long vs hv) ⟨by omega, ?_⟩
        intro l hl
        simp at hl
    | some e =>
      by_cases he : ∃ l ∈ e, l.length < 3
      · have herr := (verify_explored_error_iff e).mpr he
        refine iff_of_false (fun hc => ?_) (fun h => ?_)
        · rw [new_explored_some_bad vs e herr] at hc
          exact Except.noConfusion hc
        · obtain ⟨l, hl, hlen⟩ := he
          exact absurd (h.2 l (by simpa using hl)) (by omega)
      · have hok : PolygonMap.verify_explored e = .ok () := by
          cases h2 : PolygonMap.verify_explored e with
          | error err =>
            cases err
            exact absurd ((verify_explored_error_iff e).mp h2) he
          | ok u => cases u; rfl
        by_cases hv : vs.length < 3
        · refine iff_of_false (fun hc => ?_) (fun h => by omega)
          rw [new_explored_some_short vs e hok hv] at hc
          exact Except.noConfusion hc
        · refine iff_of_true (new_explored_some_long vs e hok hv) ⟨by omega, ?_⟩
          intro l hl
          by_contra hlen
          exact he ⟨l, by simpa using hl, by omega⟩
/-! ## C10 -/

/-- C10: the tolerant constructor `new_noexpand_nooutofmap` always
returns `Ok` — `OutOfMap` is the only `LocationError` variant and is
silently skipped, so the error branch is unreachable — and the returned
`LocalMap` records my robot and every other robot, including those whose
placement was skipped. -/
theorem new_noexpand_nooutofmap_always_ok (P : Type) (m : CellMap)
    (my : Robot P) (others : List (Robot P)) :
    ∃ m', LocalMap.new_noexpand_nooutofmap m my others = .ok ⟨m', my, others⟩ ∧
      (LocalMap.mk m' my others).my_position = my.location ∧
      (LocalMap.mk m' my others).other_positions
        = others.map (fun r => r.location) :=
  ⟨_, rfl, rfl, rfl⟩

/-! ## C4 -/

theorem cell_map_new_eq (p1 p2 : RealWorldLocation) (r : AxisResolution)
    (hgx : (-1 : ℚ) < Coords.distance_x p1.location p2.location * r.x)
    (hgy : (-1 : ℚ) < Coords.distance_y p1.location p2.location * r.y) :
    CellMap.new p1 p2 r = some
      ⟨Mat.from_elem
        (Int.toNat ⌊Coords.distance_y p1.location p2.location * r.y⌋)
        (Int.toNat ⌊Coords.distance_x p1.location p2.location * r.x⌋)
        LocationType.Unexplored, r,
       ⟨min p1.x p2.x, min p1.y p2.y, min p1.z p2.z⟩⟩ := by
  unfold CellMap.new
  simp only [f64_to_usize, if_pos hgx, if_pos hgy]

/-- C4: `CellMap::new` produces a grid anchored at the componentwise
minimum of the two corners, with `floor(|Δx| * resolution.x)` columns
and `floor(|Δy| * resolution.y)` rows (truncation of the nonnegative
products, fractional remainders dropped), every cell `Unexplored`.  The
nonnegativity hypotheses on the resolution reflect the data model's
positive-resolution invariant, under which the `to_usize` conversions
cannot fail. -/
theorem cell_map_new_characterization (p1 p2 : RealWorldLocation)
    (r : AxisResolution) (hx : 0 ≤ r.x) (hy : 0 ≤ r.y) :
    ∃ m, CellMap.new p1 p2 r = some m ∧
      m.offset = ⟨min p1.x p2.x, min p1.y p2.y, min p1.z p2.z⟩ ∧
      m.resolution = r ∧
      (m.width : ℤ) = ⌊|p1.x - p2.x| * r.x⌋ ∧
      (m.height : ℤ) = ⌊|p1.y - p2.y| * r.y⌋ ∧
      m.cells.data
        = List.replicate (m.height * m.width) LocationType.Unexplored := by
  have hcx : 0 ≤ Coords.distance_x p1.location p2.location * r.x :=
    mul_nonneg (abs_nonneg _) hx
  have hcy : 0 ≤ Coords.distance_y p1.location p2.location * r.y :=
    mul_nonneg (abs_nonneg _) hy
  have hgx : (-1 : ℚ) < Coords.distance_x p1.location p2.location * r.x :=
    lt_of_lt_of_le (by norm_num) hcx
  have hgy : (-1 : ℚ) < Coords.distance_y p1.location p2.location * r.y :=
    lt_of_lt_of_le (by norm_num) hcy
  refine ⟨_, cell_map_new_eq p1 p2 r hgx hgy, rfl, rfl, ?_, ?_, rfl⟩
  · simp only [CellMap.width, CellMap.ncols, Mat.from_elem]
    rw [Int.toNat_of_nonneg (Int.floor_nonneg.mpr hcx)]
    rw [Coords.distance_x, abs_sub_comm]
    rfl
  · simp only [CellMap.height, CellMap.nrows, Mat.from_elem]
    rw [Int.toNat_of_nonneg (Int.floor_nonneg.mpr hcy)]
    rw [Coords.distance_y, abs_sub_comm]
    rfl

/-- Witness for C4 at the claim's own example: corners `(0,0,0)` and
`(1.5,1,0)` at uniform resolution 1 give a 1×1 grid (width truncated
from 1.5 down to 1). -/
theorem cell_map_new_characterization_witness :
    (0 : ℚ) ≤ 1 ∧
    ∃ m, CellMap.new (RealWorldLocation.from_xyz 0 0 0)
        (RealWorldLocation.from_xyz 1.5 1 0) (AxisResolution.uniform 1)
        = some m ∧ m.width = 1 ∧ m.height = 1 ∧
        m.offset = ⟨0, 0, 0⟩ := by
  refine ⟨by norm_num, ?_⟩
  obtain ⟨m, hsome, hoff, _, hw, hh, _⟩ :=
    cell_map_new_characterization (RealWorldLocation.from_xyz 0 0 0)
      (RealWorldLocation.from_xyz 1.5 1 0) (AxisResolution.uniform 1)
      (by norm_num [AxisResolution.uniform]) (by norm_num [AxisResolution.uniform])
  refine ⟨m, hsome, ?_, ?_, ?_⟩
  · have : (m.width : ℤ) = 1 := by
      rw [hw]
      have habs : |(RealWorldLocation.from_xyz 0 0 0).x
          - (RealWorldLocation.from_xyz 1.5 1 0).x| = 3 / 2 := by
        rw [abs_sub_comm]
        rw [abs_of_nonneg (by
          norm_num [RealWorldLocation.from_xyz, RealWorldLocation.x])]
        norm_num [RealWorldLocation.from_xyz, RealWorldLocation.x]
      rw [habs]
      norm_num [AxisResolution.uniform]
    exact_mod_cast this
  · have : (m.height : ℤ) = 1 := by
      rw [hh]
      norm_num [RealWorldLocation.from_xyz, RealWorldLocation.y,
        AxisResolution.uniform]
    exact_mod_cast this
  · rw [hoff]
    norm_num [RealWorldLocation.from_xyz, RealWorldLocation.x,
      RealWorldLocation.y, RealWorldLocation.z]

/-! ## C3 -/

/-- C3: `location_to_map_index` answers `Err(OutOfMap)` — an ordinary
returned value of the embedding's total function, not a panic — for
every location whose floored column index reaches the width, whose
floored row index reaches the height, or which lies below the grid's
offset in x or in y (for a positive per-axis resolution). -/
theorem location_to_map_index_out_of_bounds (m : CellMap)
    (p : RealWorldLocation) (hx : 0 < m.resolution.x)
    (hy : 0 < m.resolution.y)
    (h : p.x < m.offset.x ∨ p.y < m.offset.y ∨
      (m.width : ℤ) ≤ ⌊(p.x - m.offset.x) * m.resolution.x⌋ ∨
      (m.height : ℤ) ≤ ⌊(p.y - m.offset.y) * m.resolution.y⌋) :
    m.location_to_map_index p = .error .OutOfMap := by
  unfold CellMap.location_to_map_index
  simp only [RealWorldLocation.into_internal_res]
  by_cases hneg : ⌊(p.x - m.offset.x) * m.resolution.x⌋ < 0 ∨
      ⌊(p.y - m.offset.y) * m.resolution.y⌋ < 0
  · rw [if_pos hneg]
  · rw [if_neg hneg]
    push_neg at hneg
    obtain ⟨hcx0, hcy0⟩ := hneg
    rcases h with h | h | h | h
    · exfalso
      have hprod : (p.x - m.offset.x) * m.resolution.x < 0 :=
        mul_neg_of_neg_of_pos (by linarith) hx
      have : ⌊(p.x - m.offset.x) * m.resolution.x⌋ < 0 :=
        Int.floor_lt.mpr (by exact_mod_cast hprod)
      omega
    · exfalso
      have hprod : (p.y - m.offset.y) * m.resolution.y < 0 :=
        mul_neg_of_neg_of_pos (by linarith) hy
      have : ⌊(p.y - m.offset.y) * m.resolution.y⌋ < 0 :=
        Int.floor_lt.mpr (by exact_mod_cast hprod)
      omega
    · rw [if_pos (Or.inl (by omega))]
    · rw [if_pos (Or.inr (by omega))]

/-- Witness for C3 on the 5×3 seed grid (width 3, height 5, offset the
origin, uniform resolution 1): the column of `(3,0,0)` reaches the
width, and `(-1,0,0)` lies below the offset in x; both answer
`Err(OutOfMap)`. -/
theorem location_to_map_index_out_of_bounds_witness :
    (0 : ℚ) < 1 ∧
    seedMap.location_to_map_index (RealWorldLocation.from_xyz 3 0 0)
      = .error .OutOfMap ∧
    seedMap.location_to_map_index (RealWorldLocation.from_xyz (-1) 0 0)
      = .error .OutOfMap := by
  have hx : (0 : ℚ) < seedMap.resolution.x := by
    norm_num [seedMap, CellMap.from_raster, AxisResolution.uniform]
  have hy : (0 : ℚ) < seedMap.resolution.y := by
    norm_num [seedMap, CellMap.from_raster, AxisResolution.uniform]
  refine ⟨by norm_num, ?_, ?_⟩
  · refine location_to_map_index_out_of_bounds seedMap _ hx hy
      (Or.inr (Or.inr (Or.inl ?_)))
    norm_num [seedMap, CellMap.from_raster, CellMap.width, CellMap.ncols,
      AxisResolution.uniform, RealWorldLocation.from_xyz, RealWorldLocation.x]
  · refine location_to_map_index_out_of_bounds seedMap _ hx hy (Or.inl ?_)
    norm_num [seedMap, CellMap.from_raster, RealWorldLocation.from_xyz,
      RealWorldLocation.x]

/-! ## C6 -/

theorem range_mul_flatMap {β : Type} (nr nc : ℕ) (g : ℕ → ℕ → β) :
    (List.range (nr * nc)).map (fun i => g (i / nc) (i % nc))
      = (List.range nr).flatMap (fun r => (List.range nc).map (fun c => g r c)) := by
  induction nr with
  | zero => simp
  | succ n ih =>
    rcases Nat.eq_zero_or_pos nc with hnc | hnc
    · subst hnc; simp
    · rw [Nat.succ_mul, List.range_add, List.map_append, List.map_map, ih,
        List.range_succ, List.flatMap_append]
      congr 1
      simp only [List.flatMap_cons, List.flatMap_nil, List.append_nil]
      apply List.map_congr_left
      intro c hc
      have hclt : c < nc := List.mem_range.mp hc
      simp only [Function.comp_apply]
      congr 1
      · rw [Nat.add_comm, Nat.add_mul_div_right _ _ hnc, Nat.div_eq_of_lt hclt,
          Nat.zero_add]
      · rw [Nat.add_comm, Nat.add_mul_mod_self_right, Nat.mod_eq_of_lt hclt]

theorem indexed_iter_eq_nested {α : Type} [Inhabited α] (m : Mat α) :
    m.indexed_iter = (List.range m.nrows).flatMap
      (fun r => (List.range m.ncols).map (fun c => ((r, c), m.get r c))) := by
  unfold Mat.indexed_iter Mat.get
  have h : (fun i => ((i / m.ncols, i % m.ncols), m.data.getD i default))
      = (fun i => ((i / m.ncols, i % m.ncols),
          m.data.getD (i / m.ncols * m.ncols + i % m.ncols) default)) := by
    funext i
    rw [Nat.div_add_mod']
  rw [h]
  exact range_mul_flatMap m.nrows m.ncols
    (fun r c => ((r, c), m.data.getD (r * m.ncols + c) default))

theorem get_map_region_eq_spec (m : CellMap) (f : LocationType → Bool) :
    m.get_map_region f = getMapRegionSpec m f := by
  unfold CellMap.get_map_region getMapRegionSpec
  rw [indexed_iter_eq_nested]
  rw [List.filter_flatMap, List.map_flatMap]
  apply List.flatMap_congr
  intro r hr
  rw [List.filter_map, List.map_map]
  rfl

theorem seed_get_map_state_out_of_map :
    seedMap.get_map_state .OutOfMap
      = [⟨RealWorldLocation.from_xyz 0 0 0, .OutOfMap⟩,
         ⟨RealWorldLocation.from_xyz 1 2 0, .OutOfMap⟩] := by
  rw [CellMap.get_map_state, CellMap.get_map_region]
  have h1 : seedMap.cells.indexed_iter.filter
      (fun x => x.2 == LocationType.OutOfMap)
      = [((0, 0), .OutOfMap), ((2, 1), .OutOfMap)] := by decide
  rw [h1]
  norm_num [Cell.new, InternalLocationRes.into_real_world,
    RealWorldLocation.from_xyz, seedMap, CellMap.from_raster,
    AxisResolution.uniform]

/-- C6: `get_map_region` scans the grid in row-major order — row 0
first, within a row column 0 first — and returns the matching cells with
their real-world locations reconstructed from `(col, row, 0)`, the
grid's offset and its resolution (the cell's lower corner); on the 5×3
seed grid at offset `(0,0,0)` and resolution 1, `get_map_state(OutOfMap)`
returns exactly the cells at `(col 0, row 0)` and `(col 1, row 2)`. -/
theorem get_map_region_row_major :
    (∀ (m : CellMap) (f : LocationType → Bool),
      m.get_map_region f = getMapRegionSpec m f) ∧
    seedMap.get_map_state .OutOfMap
      = [⟨RealWorldLocation.from_xyz 0 0 0, .OutOfMap⟩,
         ⟨RealWorldLocation.from_xyz 1 2 0, .OutOfMap⟩] :=
  ⟨get_map_region_eq_spec, seed_get_map_state_out_of_map⟩

/-! ## C9 -/

theorem location_to_map_index_set_invariant (m : CellMap) (r c : ℕ)
    (v : LocationType) (p : RealWorldLocation) :
    ({ m with cells := m.cells.set r c v } : CellMap).location_to_map_index p
      = m.location_to_map_index p := by
  simp [CellMap.location_to_map_index, CellMap.width, CellMap.height,
    CellMap.ncols, CellMap.nrows, Mat.set]

theorem set_location_of_index_error (m : CellMap) (p : RealWorldLocation)
    (v : LocationType) (h : m.location_to_map_index p = .error .OutOfMap) :
    m.set_location p v = .error .OutOfMap := by
  simp [CellMap.set_location, h, Except.map]

theorem set_location_of_index_ok (m : CellMap) (p : RealWorldLocation)
    (v : LocationType) (rc : ℕ × ℕ) (h : m.location_to_map_index p = .ok rc) :
    m.set_location p v = .ok { m with cells := m.cells.set rc.1 rc.2 v } := by
  simp [CellMap.set_location, h, Except.map]

theorem stamp_others_eq_spec {P : Type} (m0 : CellMap) (robots : List (Robot P)) :
    ∀ (m : CellMap),
      (∀ p, m.location_to_map_index p = m0.location_to_map_index p) →
      LocalMap.stamp_others m robots =
        match (robots.map (fun r => r.location)).find?
            (fun l => !(m0.location_to_map_index l).isOk) with
        | some l => .error (.OutOfMap, l)
        | none => .ok (robots.foldl
            (fun acc r => acc.set_location_or_skip r.location .OtherRobot) m) := by
  induction robots with
  | nil =>
    intro m _
    rfl
  | cons r rs ih =>
    intro m hm
    cases hidx : m.location_to_map_index r.location with
    | error e =>
      cases e
      have hset := set_location_of_index_error m r.location .OtherRobot hidx
      have hpred : (!(m0.location_to_map_index r.location).isOk) = true := by
        rw [← hm r.location, hidx]
        rfl
      have hfind : (r.location :: rs.map (fun r => r.location)).find?
          (fun l => !(m0.location_to_map_index l).isOk) = some r.location :=
        List.find?_cons_of_pos _ hpred
      rw [List.map_cons, hfind]
      simp only [LocalMap.stamp_others, hset]
    | ok rc =>
      have hset := set_location_of_index_ok m r.location .OtherRobot rc hidx
      have hpred : (!(m0.location_to_map_index r.location).isOk) = false := by
        rw [← hm r.location, hidx]
        rfl
      have hfind : (r.location :: rs.map (fun r => r.location)).find?
          (fun l => !(m0.location_to_map_index l).isOk)
          = (rs.map (fun r => r.location)).find?
              (fun l => !(m0.location_to_map_index l).isOk) :=
        List.find?_cons_of_neg _ (by simp [hpred])
      rw [List.map_cons, hfind]
      have hskip : m.set_location_or_skip r.location .OtherRobot
          = { m with cells := m.cells.set rc.1 rc.2 .OtherRobot } := by
        rw [CellMap.set_location_or_skip, hset]
      have hm' : ∀ p,
          ({ m with cells := m.cells.set rc.1 rc.2 .OtherRobot } : CellMap).location_to_map_index p
            = m0.location_to_map_index p := by
        intro p
        rw [location_to_map_index_set_invariant, hm p]
      simp only [LocalMap.stamp_others, hset, List.foldl_cons, hskip]
      exact ih _ hm'

/-- C9: strict `LocalMap` construction stamps `MyRobot` at the my-robot
position and then `OtherRobot` at each other position in list order; the
first placement that fails aborts the whole construction with
`OutOfMap` paired with exactly the offending robot's coordinate (no
later robot's stamp is applied — the partially stamped grid is
discarded), and when every placement succeeds the stamps are applied in
order.  Stated as equality with `newNoexpandSpec`, the reference
implementation written from the claim's words. -/
theorem new_noexpand_eq_spec (P : Type) (m : CellMap) (my : Robot P)
    (others : List (Robot P)) :
    LocalMap.new_noexpand m my others = newNoexpandSpec m my others := by
  unfold LocalMap.new_noexpand newNoexpandSpec
  cases hidx : m.location_to_map_index my.location with
  | error e =>
    cases e
    have hset := set_location_of_index_error m my.location .MyRobot hidx
    have hpred : (!(m.location_to_map_index my.location).isOk) = true := by
      rw [hidx]; rfl
    have hfind : (my.location :: others.map (fun r => r.location)).find?
        (fun l => !(m.location_to_map_index l).isOk) = some my.location :=
      List.find?_cons_of_pos _ hpred
    rw [hfind]
    simp only [hset]
  | ok rc =>
    have hset := set_location_of_index_ok m my.location .MyRobot rc hidx
    have hpred : (!(m.location_to_map_index my.location).isOk) = false := by
      rw [hidx]; rfl
    have hfind : (my.location :: others.map (fun r => r.location)).find?
        (fun l => !(m.location_to_map_index l).isOk)
        = (others.map (fun r => r.location)).find?
            (fun l => !(m.location_to_map_index l).isOk) :=
      List.find?_cons_of_neg _ (by simp [hpred])
    have hskip : m.set_location_or_skip my.location .MyRobot
        = { m with cells := m.cells.set rc.1 rc.2 .MyRobot } := by
      rw [CellMap.set_location_or_skip, hset]
    have hm' : ∀ p,
        ({ m with cells := m.cells.set rc.1 rc.2 .MyRobot } : CellMap).location_to_map_index p
          = m.location_to_map_index p :=
      fun p => location_to_map_index_set_invariant m rc.1 rc.2 .MyRobot p
    rw [hfind, hskip]
    simp only [hset]
    rw [stamp_others_eq_spec m others _ hm']
    cases hfind2 : (others.map (fun r => r.location)).find?
        (fun l => !(m.location_to_map_index l).isOk) with
    | none => rfl
    | some l => rfl

/-! ## C7 helper lemmas: matrix access -/

theorem flat_index_lt (r c nr nc : ℕ) (hr : r < nr) (hc : c < nc) :
    r * nc + c < nr * nc := by
  have e : (r + 1) * nc = r * nc + nc := Nat.succ_mul r nc
  have h2 : (r + 1) * nc ≤ nr * nc := Nat.mul_le_mul_right nc hr
  omega

theorem flat_index_inj (r c r' c' nc : ℕ) (hc : c < nc) (hc' : c' < nc)
    (h : r' * nc + c' = r * nc + c) : r' = r ∧ c' = c := by
  have hnc : 0 < nc := by omega
  have h1 : (r' * nc + c') / nc = r' := by
    rw [Nat.add_comm, Nat.add_mul_div_right _ _ hnc, Nat.div_eq_of_lt hc',
      Nat.zero_add]
  have h2 : (r * nc + c) / nc = r := by
    rw [Nat.add_comm, Nat.add_mul_div_right _ _ hnc, Nat.div_eq_of_lt hc,
      Nat.zero_add]
  have hr : r' = r := by rw [← h1, ← h2, h]
  constructor
  · exact hr
  · subst hr; omega

theorem Mat.ofFn_data_eq {α : Type} (nr nc : ℕ) (f : ℕ → ℕ → α) :
    (Mat.ofFn nr nc f).data
      = (List.range (nr * nc)).map (fun i => f (i / nc) (i % nc)) :=
  (range_mul_flatMap nr nc f).symm

theorem Mat.ofFn_length {α : Type} (nr nc : ℕ) (f : ℕ → ℕ → α) :
    (Mat.ofFn nr nc f).data.length = nr * nc := by
  rw [Mat.ofFn_data_eq, List.length_map, List.length_range]

theorem Mat.ofFn_get {α : Type} [Inhabited α] (nr nc : ℕ) (f : ℕ → ℕ → α)
    (r c : ℕ) (hr : r < nr) (hc : c < nc) :
    (Mat.ofFn nr nc f).get r c = f r c := by
  have hlt : r * nc + c < nr * nc := flat_index_lt r c nr nc hr hc
  show (Mat.ofFn nr nc f).data.getD (r * nc + c) default = f r c
  rw [Mat.ofFn_data_eq, List.getD_eq_getElem?_getD, List.getElem?_map]
  rw [List.getElem?_range hlt]
  show f ((r * nc + c) / nc) ((r * nc + c) % nc) = f r c
  have hnc : 0 < nc := by omega
  congr 1
  · rw [Nat.add_comm, Nat.add_mul_div_right _ _ hnc, Nat.div_eq_of_lt hc,
      Nat.zero_add]
  · rw [Nat.add_comm, Nat.add_mul_mod_self_right, Nat.mod_eq_of_lt hc]

theorem Mat.get_map_of_lt {α β : Type} [Inhabited α] [Inhabited β] (m : Mat α)
    (f : α → β) (r c : ℕ) (h : r * m.ncols + c < m.data.length) :
    (m.map f).get r c = f (m.get r c) := by
  show (m.data.map f).getD (r * m.ncols + c) default = f (m.data.getD (r * m.ncols + c) default)
  rw [List.getD_eq_getElem?_getD, List.getElem?_map,
    List.getElem?_eq_getElem h, List.getD_eq_getElem?_getD,
    List.getElem?_eq_getElem h]
  simp

theorem Mat.get_set_self {α : Type} [Inhabited α] (m : Mat α) (r c : ℕ) (v : α)
    (h : r * m.ncols + c < m.data.length) :
    (m.set r c v).get r c = v := by
  show (m.data.set (r * m.ncols + c) v).getD (r * m.ncols + c) default = v
  rw [List.getD_eq_getElem?_getD, List.getElem?_set_self]
  · simp
  · exact h

theorem Mat.get_set_ne {α : Type} [Inhabited α] (m : Mat α) (r c r' c' : ℕ)
    (v : α) (hc : c < m.ncols) (hc' : c' < m.ncols)
    (hne : ¬(r' = r ∧ c' = c)) :
    (m.set r' c' v).get r c = m.get r c := by
  show (m.data.set (r' * m.ncols + c') v).getD (r * m.ncols + c) default
    = m.data.getD (r * m.ncols + c) default
  rw [List.getD_eq_getElem?_getD, List.getElem?_set_ne, ← List.getD_eq_getElem?_getD]
  intro heq
  exact hne (flat_index_inj r c r' c' m.ncols hc hc' heq)

/-! ## C7 helper lemmas: writes through `set_location_or_skip` -/

theorem location_to_map_index_ok_bounds (m : CellMap) (p : RealWorldLocation)
    (rc : ℕ × ℕ) (h : m.location_to_map_index p = .ok rc) :
    rc.1 < m.cells.nrows ∧ rc.2 < m.cells.ncols := by
  simp only [CellMap.location_to_map_index] at h
  split_ifs at h with h1 h2
  push_neg at h2
  simp only [Except.ok.injEq] at h
  subst h
  simp only [CellMap.width, CellMap.height, CellMap.ncols, CellMap.nrows] at h2
  exact ⟨h2.2, h2.1⟩

theorem set_or_skip_fields (m : CellMap) (p : RealWorldLocation)
    (v : LocationType) :
    (m.set_location_or_skip p v).cells.nrows = m.cells.nrows ∧
    (m.set_location_or_skip p v).cells.ncols = m.cells.ncols ∧
    (m.set_location_or_skip p v).cells.data.length = m.cells.data.length ∧
    (m.set_location_or_skip p v).resolution = m.resolution ∧
    (m.set_location_or_skip p v).offset = m.offset := by
  cases hidx : m.location_to_map_index p with
  | error e =>
    cases e
    simp [CellMap.set_location_or_skip,
      set_location_of_index_error m p v hidx]
  | ok rc =>
    simp [CellMap.set_location_or_skip,
      set_location_of_index_ok m p v rc hidx, Mat.set]

theorem set_or_skip_idx (m : CellMap) (p : RealWorldLocation)
    (v : LocationType) (q : RealWorldLocation) :
    (m.set_location_or_skip p v).location_to_map_index q
      = m.location_to_map_index q := by
  cases hidx : m.location_to_map_index p with
  | error e =>
    cases e
    simp only [CellMap.set_location_or_skip,
      set_location_of_index_error m p v hidx]
  | ok rc =>
    simp only [CellMap.set_location_or_skip,
      set_location_of_index_ok m p v rc hidx]
    exact location_to_map_index_set_invariant m rc.1 rc.2 v q

theorem get_set_or_skip_hit (m : CellMap) (p : RealWorldLocation)
    (v : LocationType) (row col : ℕ)
    (hlen : m.cells.data.length = m.cells.nrows * m.cells.ncols)
    (hidx : m.location_to_map_index p = .ok (row, col)) :
    (m.set_location_or_skip p v).cells.get row col = v := by
  obtain ⟨hrow, hcol⟩ := location_to_map_index_ok_bounds m p (row, col) hidx
  simp only [CellMap.set_location_or_skip,
    set_location_of_index_ok m p v (row, col) hidx]
  exact Mat.get_set_self m.cells row col v
    (by rw [hlen]; exact flat_index_lt row col _ _ hrow hcol)

theorem get_set_or_skip_miss (m : CellMap) (p : RealWorldLocation)
    (v : LocationType) (row col : ℕ) (hcol : col < m.cells.ncols)
    (hidx : m.location_to_map_index p ≠ .ok (row, col)) :
    (m.set_location_or_skip p v).cells.get row col = m.cells.get row col := by
  cases h : m.location_to_map_index p with
  | error e =>
    cases e
    simp only [CellMap.set_location_or_skip,
      set_location_of_index_error m p v h]
  | ok rc =>
    obtain ⟨hr', hc'⟩ := location_to_map_index_ok_bounds m p rc h
    simp only [CellMap.set_location_or_skip,
      set_location_of_index_ok m p v rc h]
    apply Mat.get_set_ne m.cells row col rc.1 rc.2 v hcol hc'
    rintro ⟨h1, h2⟩
    apply hidx
    rw [h]
    have : rc = (row, col) := Prod.ext h1 h2
    rw [this]

theorem get_foldl_writes (v : LocationType) (locs : List RealWorldLocation) :
    ∀ (m : CellMap) (row col : ℕ),
      row < m.cells.nrows → col < m.cells.ncols →
      m.cells.data.length = m.cells.nrows * m.cells.ncols →
      ((∃ l ∈ locs, m.location_to_map_index l = .ok (row, col)) →
        (locs.foldl (fun acc l => acc.set_location_or_skip l v) m).cells.get row col
          = v) ∧
      ((¬ ∃ l ∈ locs, m.location_to_map_index l = .ok (row, col)) →
        (locs.foldl (fun acc l => acc.set_location_or_skip l v) m).cells.get row col
          = m.cells.get row col) := by
  induction locs with
  | nil =>
    intro m row col _ _ _
    constructor
    · rintro ⟨l, hl, _⟩
      exact absurd hl (List.not_mem_nil l)
    · intro _
      rfl
  | cons l ls ih =>
    intro m row col hrow hcol hlen
    have hfields := set_or_skip_fields m l v
    have hrow1 : row < (m.set_location_or_skip l v).cells.nrows := by
      rw [hfields.1]; exact hrow
    have hcol1 : col < (m.set_location_or_skip l v).cells.ncols := by
      rw [hfields.2.1]; exact hcol
    have hlen1 : (m.set_location_or_skip l v).cells.data.length
        = (m.set_location_or_skip l v).cells.nrows
          * (m.set_location_or_skip l v).cells.ncols := by
      rw [hfields.2.2.1, hfields.1, hfields.2.1]; exact hlen
    have hidx1 := set_or_skip_idx m l v
    obtain ⟨ih1, ih2⟩ := ih (m.set_location_or_skip l v) row col hrow1 hcol1 hlen1
    constructor
    · rintro ⟨l', hl', hokl'⟩
      rcases List.mem_cons.mp hl' with rfl | hl'
      · by_cases hrest : ∃ l'' ∈ ls, m.location_to_map_index l'' = .ok (row, col)
        · obtain ⟨l'', hl'', hok''⟩ := hrest
          rw [List.foldl_cons]
          exact ih1 ⟨l'', hl'', by rw [hidx1]; exact hok''⟩
        · rw [List.foldl_cons]
          rw [ih2 (fun ⟨l'', hl'', hok''⟩ =>
            hrest ⟨l'', hl'', by rw [← hidx1 l'']; exact hok''⟩)]
          exact get_set_or_skip_hit m l' v row col hlen hokl'
      · rw [List.foldl_cons]
        exact ih1 ⟨l', hl', by rw [hidx1]; exact hokl'⟩
    · intro hnone
      have hl : m.location_to_map_index l ≠ .ok (row, col) := fun hc =>
        hnone ⟨l, List.mem_cons_self l ls, hc⟩
      rw [List.foldl_cons]
      rw [ih2 (fun ⟨l'', hl'', hok''⟩ =>
        hnone ⟨l'', List.mem_cons_of_mem l hl'', by rw [← hidx1 l'']; exact hok''⟩)]
      exact get_set_or_skip_miss m l v row col hcol hl

/-! ## C7 helper lemmas: rasterization -/

theorem bbox_fold_invariant (rest : List RealWorldLocation) :
    ∀ (acc : ℚ × ℚ × ℚ × ℚ), acc.1 ≤ acc.2.2.1 → acc.2.1 ≤ acc.2.2.2 →
      (rest.foldl
        (fun acc w =>
          (min acc.1 w.x, min acc.2.1 w.y, max acc.2.2.1 w.x, max acc.2.2.2 w.y))
        acc).1 ≤ (rest.foldl
        (fun acc w =>
          (min acc.1 w.x, min acc.2.1 w.y, max acc.2.2.1 w.x, max acc.2.2.2 w.y))
        acc).2.2.1 ∧
      (rest.foldl
        (fun acc w =>
          (min acc.1 w.x, min acc.2.1 w.y, max acc.2.2.1 w.x, max acc.2.2.2 w.y))
        acc).2.1 ≤ (rest.foldl
        (fun acc w =>
          (min acc.1 w.x, min acc.2.1 w.y, max acc.2.2.1 w.x, max acc.2.2.2 w.y))
        acc).2.2.2 := by
  induction rest with
  | nil =>
    intro acc h1 h2
    exact ⟨h1, h2⟩
  | cons w ws ih =>
    intro acc h1 h2
    rw [List.foldl_cons]
    apply ih
    · exact le_trans (min_le_left _ _) (le_trans h1 (le_max_left _ _))
    · exact le_trans (min_le_left _ _) (le_trans h2 (le_max_left _ _))

theorem polygon_bbox_spec (v : RealWorldLocation)
    (rest : List RealWorldLocation) :
    ∃ minx miny maxx maxy,
      polygon_bbox (v :: rest) = some (minx, miny, maxx, maxy) ∧
      minx ≤ maxx ∧ miny ≤ maxy := by
  have h := bbox_fold_invariant rest (v.x, v.y, v.x, v.y) le_rfl le_rfl
  exact ⟨_, _, _, _, rfl, h.1, h.2⟩

theorem f64_to_usize_of_nonneg (q : ℚ) (h : 0 ≤ q) :
    f64_to_usize q = some (Int.toNat ⌊q⌋) := by
  rw [f64_to_usize, if_pos (lt_of_lt_of_le (by norm_num) h)]

theorem rasterize_polygon_some (inside : List (ℚ × ℚ) → ℕ → ℕ → Bool)
    (vs : List RealWorldLocation) (res : AxisResolution) (hv : vs ≠ [])
    (hrx : 0 ≤ res.x) (hry : 0 ≤ res.y) :
    ∃ bg off, rasterize_polygon inside vs res = some (bg, off) ∧
      bg.data.length = bg.nrows * bg.ncols ∧
      (∀ r c, r < bg.nrows → c < bg.ncols →
        bg.get r c = inside (internal_vertices vs off res) r c) := by
  match vs with
  | [] => exact absurd rfl hv
  | v :: rest =>
    obtain ⟨minx, miny, maxx, maxy, hbb, hxle, hyle⟩ := polygon_bbox_spec v rest
    have hw : 0 ≤ (maxx - minx) * res.x :=
      mul_nonneg (by linarith) hrx
    have hh : 0 ≤ (maxy - miny) * res.y :=
      mul_nonneg (by linarith) hry
    refine ⟨Mat.ofFn (Int.toNat ⌊(maxy - miny) * res.y⌋)
        (Int.toNat ⌊(maxx - minx) * res.x⌋)
        (fun row col =>
          inside (internal_vertices (v :: rest) ⟨minx, miny, 0⟩ res) row col),
      ⟨minx, miny, 0⟩, ?_, ?_, ?_⟩
    · rw [rasterize_polygon, hbb]
      simp only [f64_to_usize_of_nonneg _ hw, f64_to_usize_of_nonneg _ hh]
    · exact Mat.ofFn_length _ _ _
    · intro r c hr hc
      exact Mat.ofFn_get _ _ _ r c hr hc

theorem get_location_isOk (cm : CellMap) (l : RealWorldLocation) :
    (cm.get_location l).isOk = (cm.location_to_map_index l).isOk := by
  cases h : cm.location_to_map_index l with
  | error e => simp [CellMap.get_location, h, Except.map, Except.isOk, Except.toBool]
  | ok rc => simp [CellMap.get_location, h, Except.map, Except.isOk, Except.toBool]

theorem cellWritten_congr (inside : List (ℚ × ℚ) → ℕ → ℕ → Bool)
    (polys : List (List RealWorldLocation)) (res : AxisResolution)
    (m1 m2 : CellMap) (row col : ℕ)
    (h : ∀ q, m1.location_to_map_index q = m2.location_to_map_index q) :
    cellWritten inside polys res m1 row col ↔
      cellWritten inside polys res m2 row col := by
  unfold cellWritten
  constructor
  · rintro ⟨polygon, hmem, bce, offe, hrast, r', c', hr', hc', htrue, hok⟩
    exact ⟨polygon, hmem, bce, offe, hrast, r', c', hr', hc', htrue,
      by rw [← h]; exact hok⟩
  · rintro ⟨polygon, hmem, bce, offe, hrast, r', c', hr', hc', htrue, hok⟩
    exact ⟨polygon, hmem, bce, offe, hrast, r', c', hr', hc', htrue,
      by rw [h]; exact hok⟩

theorem exists_explored_location_iff (cm : CellMap) (bce : Mat Bool)
    (offe : Coords) (res : AxisResolution) (row col : ℕ) :
    (∃ l ∈ explored_locations bce offe res cm,
      cm.location_to_map_index l = .ok (row, col)) ↔
    (∃ r' c', r' < bce.nrows ∧ c' < bce.ncols ∧ bce.get r' c' = true ∧
      cm.location_to_map_index
        (InternalLocationRes.into_real_world
          ⟨⟨(c' : ℚ), (r' : ℚ), 0⟩, offe, res⟩) = .ok (row, col)) := by
  unfold explored_locations
  constructor
  · rintro ⟨l, hl, hok⟩
    obtain ⟨hl2, -⟩ := List.mem_filter.mp hl
    obtain ⟨x, hx, rfl⟩ := List.mem_map.mp hl2
    obtain ⟨hx2, hxtrue⟩ := List.mem_filter.mp hx
    rw [indexed_iter_eq_nested] at hx2
    obtain ⟨r', hr', hx3⟩ := List.mem_flatMap.mp hx2
    obtain ⟨c', hc', rfl⟩ := List.mem_map.mp hx3
    refine ⟨r', c', List.mem_range.mp hr', List.mem_range.mp hc', ?_, hok⟩
    simpa using hxtrue
  · rintro ⟨r', c', hr', hc', htrue, hok⟩
    refine ⟨InternalLocationRes.into_real_world
      ⟨⟨(c' : ℚ), (r' : ℚ), 0⟩, offe, res⟩, ?_, hok⟩
    apply List.mem_filter.mpr
    constructor
    · apply List.mem_map.mpr
      refine ⟨((r', c'), bce.get r' c'), ?_, rfl⟩
      apply List.mem_filter.mpr
      constructor
      · rw [indexed_iter_eq_nested]
        apply List.mem_flatMap.mpr
        refine ⟨r', List.mem_range.mpr hr', ?_⟩
        apply List.mem_map.mpr
        exact ⟨c', List.mem_range.mpr hc', rfl⟩
      · simpa using htrue
    · rw [get_location_isOk, hok]
      rfl

theorem foldl_or_skip_fields (v : LocationType) (locs : List RealWorldLocation) :
    ∀ (cm : CellMap),
      (locs.foldl (fun acc l => acc.set_location_or_skip l v) cm).cells.nrows
        = cm.cells.nrows ∧
      (locs.foldl (fun acc l => acc.set_location_or_skip l v) cm).cells.ncols
        = cm.cells.ncols ∧
      (locs.foldl (fun acc l => acc.set_location_or_skip l v) cm).cells.data.length
        = cm.cells.data.length ∧
      (locs.foldl (fun acc l => acc.set_location_or_skip l v) cm).resolution
        = cm.resolution ∧
      (locs.foldl (fun acc l => acc.set_location_or_skip l v) cm).offset
        = cm.offset ∧
      ∀ q, (locs.foldl (fun acc l => acc.set_location_or_skip l v) cm).location_to_map_index q
        = cm.location_to_map_index q := by
  induction locs with
  | nil =>
    intro cm
    exact ⟨rfl, rfl, rfl, rfl, rfl, fun q => rfl⟩
  | cons l ls ih =>
    intro cm
    have hstep := set_or_skip_fields cm l v
    have hstepidx := set_or_skip_idx cm l v
    obtain ⟨i1, i2, i3, i4, i5, i6⟩ := ih (cm.set_location_or_skip l v)
    rw [List.foldl_cons]
    refine ⟨?_, ?_, ?_, ?_, ?_, ?_⟩
    · rw [i1, hstep.1]
    · rw [i2, hstep.2.1]
    · rw [i3, hstep.2.2.1]
    · rw [i4, hstep.2.2.2.1]
    · rw [i5, hstep.2.2.2.2]
    · intro q
      rw [i6 q, hstepidx q]

theorem stamp_explored_characterization
    (inside : List (ℚ × ℚ) → ℕ → ℕ → Bool) (res : AxisResolution)
    (hrx : 0 ≤ res.x) (hry : 0 ≤ res.y)
    (polys : List (List RealWorldLocation)) :
    ∀ (cm : CellMap),
      (∀ l ∈ polys, l ≠ []) →
      cm.cells.data.length = cm.cells.nrows * cm.cells.ncols →
      ∃ final, PolygonMap.stamp_explored inside res polys cm = some final ∧
        final.cells.nrows = cm.cells.nrows ∧
        final.cells.ncols = cm.cells.ncols ∧
        final.resolution = cm.resolution ∧
        final.offset = cm.offset ∧
        (∀ q, final.location_to_map_index q = cm.location_to_map_index q) ∧
        (∀ row col, row < cm.cells.nrows → col < cm.cells.ncols →
          (cellWritten inside polys res cm row col →
            final.cells.get row col = .Explored) ∧
          (¬ cellWritten inside polys res cm row col →
            final.cells.get row col = cm.cells.get row col)) := by
  induction polys with
  | nil =>
    intro cm _ _
    refine ⟨cm, rfl, rfl, rfl, rfl, rfl, fun q => rfl, ?_⟩
    intro row col _ _
    constructor
    · rintro ⟨polygon, hmem, -⟩
      exact absurd hmem (List.not_mem_nil polygon)
    · intro _
      rfl
  | cons poly rest ih =>
    intro cm hne hlen
    obtain ⟨bce, offe, hrast, hbglen, hbgget⟩ :=
      rasterize_polygon_some inside poly res
        (hne poly (List.mem_cons_self poly rest)) hrx hry
    have hf := foldl_or_skip_fields .Explored
      (explored_locations bce offe res cm) cm
    obtain ⟨hf1, hf2, hf3, hf4, hf5, hfidx⟩ := hf
    have hlen1 :
        ((explored_locations bce offe res cm).foldl
          (fun m location => m.set_location_or_skip location .Explored)
          cm).cells.data.length
        = ((explored_locations bce offe res cm).foldl
          (fun m location => m.set_location_or_skip location .Explored)
          cm).cells.nrows
          * ((explored_locations bce offe res cm).foldl
            (fun m location => m.set_location_or_skip location .Explored)
            cm).cells.ncols := by
      rw [hf1, hf2, hf3, hlen]
    obtain ⟨final, hfinal, g1, g2, g3, g4, gidx, gchar⟩ :=
      ih ((explored_locations bce offe res cm).foldl
        (fun m location => m.set_location_or_skip location .Explored) cm)
        (fun l hl => hne l (List.mem_cons_of_mem poly hl)) hlen1
    have hstep : PolygonMap.stamp_explored inside res (poly :: rest) cm
        = PolygonMap.stamp_explored inside res rest
            ((explored_locations bce offe res cm).foldl
              (fun m location => m.set_location_or_skip location .Explored) cm) := by
      simp only [PolygonMap.stamp_explored, hrast]
    refine ⟨final, by rw [hstep]; exact hfinal, by rw [g1, hf1],
      by rw [g2, hf2], by rw [g3, hf4], by rw [g4, hf5],
      fun q => by rw [gidx q, hfidx q], ?_⟩
    intro row col hrow hcol
    have hrow1 := hrow
    have hcol1 := hcol
    rw [← hf1] at hrow1
    rw [← hf2] at hcol1
    obtain ⟨w1, w2⟩ := gchar row col hrow1 hcol1
    obtain ⟨d1, d2⟩ := get_foldl_writes .Explored
      (explored_locations bce offe res cm) cm row col hrow hcol hlen
    have hcongr := cellWritten_congr inside rest res
      ((explored_locations bce offe res cm).foldl
        (fun m location => m.set_location_or_skip location .Explored) cm)
      cm row col hfidx
    constructor
    · rintro ⟨polygon, hmem, bce', offe', hrast', r', c', hr', hc', htrue, hok⟩
      rcases List.mem_cons.mp hmem with rfl | hmem
      · have hinj : bce = bce' ∧ offe = offe' := by
          have h2 := hrast.symm.trans hrast'
          simpa using h2
        obtain ⟨he1, he2⟩ := hinj
        subst he1
        subst he2
        by_cases hr2 : cellWritten inside rest res cm row col
        · exact w1 (hcongr.mpr hr2)
        · rw [w2 (fun hc => hr2 (hcongr.mp hc))]
          exact d1 ((exists_explored_location_iff cm bce offe res row col).mpr
            ⟨r', c', hr', hc', htrue, hok⟩)
      · exact w1 (hcongr.mpr
          ⟨polygon, hmem, bce', offe', hrast', r', c', hr', hc', htrue, hok⟩)
    · intro hnw
      have hnp : ¬ ∃ r' c', r' < bce.nrows ∧ c' < bce.ncols ∧
          bce.get r' c' = true ∧
          cm.location_to_map_index
            (InternalLocationRes.into_real_world
              ⟨⟨(c' : ℚ), (r' : ℚ), 0⟩, offe, res⟩) = .ok (row, col) := by
        rintro ⟨r', c', hr', hc', htrue, hok⟩
        exact hnw ⟨poly, List.mem_cons_self poly rest, bce, offe, hrast,
          r', c', hr', hc', htrue, hok⟩
      have hnr : ¬ cellWritten inside rest res cm row col := by
        rintro ⟨polygon, hmem, bce', offe', hrast', r', c', hr', hc', htrue, hok⟩
        exact hnw ⟨polygon, List.mem_cons_of_mem poly hmem, bce', offe',
          hrast', r', c', hr', hc', htrue, hok⟩
      rw [w2 (fun hc => hnr (hcongr.mp hc))]
      exact d2 (fun hex => hnp
        ((exists_explored_location_iff cm bce offe res row col).mp hex))

/-- C7: for every valid `PolygonMap` (all vertex lists have at least 3
vertices) and nonnegative resolution, `to_cell_map` succeeds and
produces a grid whose cells, before the explored overwrite, are
`Unexplored` exactly where the rasterizer's membership test holds for
the transformed main polygon and `OutOfMap` elsewhere; afterwards a cell
holds `Explored` exactly when some explored sub-polygon has an inside
raster cell whose reconstructed real-world location the main grid can
address at that cell (`get_location` succeeds), and every reconstructed
location the grid cannot address is silently dropped (the construction
still succeeds and no other cell changes). -/
theorem to_cell_map_characterization (inside : List (ℚ × ℚ) → ℕ → ℕ → Bool)
    (pm : PolygonMap) (res : AxisResolution)
    (hmain : 3 ≤ pm.vertices.length)
    (hexp : ∀ l ∈ pm.explored.getD [], 3 ≤ l.length)
    (hrx : 0 ≤ res.x) (hry : 0 ≤ res.y) :
    ∃ final bgrid offset,
      rasterize_polygon inside pm.vertices res = some (bgrid, offset) ∧
      PolygonMap.to_cell_map inside pm res = some final ∧
      final.offset = offset ∧
      final.resolution = res ∧
      final.cells.nrows = bgrid.nrows ∧
      final.cells.ncols = bgrid.ncols ∧
      (∀ row col, row < bgrid.nrows → col < bgrid.ncols →
        bgrid.get row col
          = inside (internal_vertices pm.vertices offset res) row col) ∧
      (∀ row col, row < final.cells.nrows → col < final.cells.ncols →
        (cellWritten inside (pm.explored.getD []) res final row col →
          final.cells.get row col = .Explored) ∧
        (¬ cellWritten inside (pm.explored.getD []) res final row col →
          final.cells.get row col
            = if bgrid.get row col then LocationType.Unexplored
              else LocationType.OutOfMap)) := by
  have hvne : pm.vertices ≠ [] := by
    intro h
    rw [h] at hmain
    simp at hmain
  obtain ⟨bgrid, offset, hrast, hbglen, hbgget⟩ :=
    rasterize_polygon_some inside pm.vertices res hvne hrx hry
  have hm0len : (CellMap.from_raster
      (bgrid.map (fun e => if e then LocationType.Unexplored
          else LocationType.OutOfMap)) res offset).cells.data.length
      = (CellMap.from_raster
      (bgrid.map (fun e => if e then LocationType.Unexplored
          else LocationType.OutOfMap)) res offset).cells.nrows
      * (CellMap.from_raster
      (bgrid.map (fun e => if e then LocationType.Unexplored
          else LocationType.OutOfMap)) res offset).cells.ncols := by
    simp only [CellMap.from_raster, Mat.map, List.length_map]
    exact hbglen
  have hm0get : ∀ row col, row < bgrid.nrows → col < bgrid.ncols →
      (CellMap.from_raster
        (bgrid.map (fun e => if e then LocationType.Unexplored
            else LocationType.OutOfMap)) res offset).cells.get row col
      = if bgrid.get row col then LocationType.Unexplored
        else LocationType.OutOfMap := by
    intro row col hrow hcol
    show (bgrid.map _).get row col = _
    rw [Mat.get_map_of_lt]
    rw [hbglen]
    exact flat_index_lt row col _ _ hrow hcol
  cases hex : pm.explored with
  | none =>
    refine ⟨CellMap.from_raster
      (bgrid.map (fun e => if e then LocationType.Unexplored
          else LocationType.OutOfMap)) res offset, bgrid, offset,
      hrast, ?_, rfl, rfl, rfl, rfl, hbgget, ?_⟩
    · rw [PolygonMap.to_cell_map, hrast, hex]
    · intro row col hrow hcol
      constructor
      · rintro ⟨polygon, hmem, -⟩
        exact absurd hmem (List.not_mem_nil polygon)
      · intro _
        exact hm0get row col hrow hcol
  | some explored =>
    have hen : ∀ l ∈ explored, l ≠ [] := by
      intro l hl hcontra
      have := hexp l (by rw [hex]; simpa using hl)
      rw [hcontra] at this
      simp at this
    obtain ⟨final, hfinal, g1, g2, g3, g4, gidx, gchar⟩ :=
      stamp_explored_characterization inside res hrx hry explored
        (CellMap.from_raster
          (bgrid.map (fun e => if e then LocationType.Unexplored
              else LocationType.OutOfMap)) res offset) hen hm0len
    refine ⟨final, bgrid, offset, hrast, ?_, by rw [g4]; rfl, by rw [g3]; rfl,
      by rw [g1]; rfl, by rw [g2]; rfl, hbgget, ?_⟩
    · rw [PolygonMap.to_cell_map, hrast, hex]
      exact hfinal
    · intro row col hrow hcol
      have hrow0 : row < bgrid.nrows := by rw [g1] at hrow; exact hrow
      have hcol0 : col < bgrid.ncols := by rw [g2] at hcol; exact hcol
      obtain ⟨w1, w2⟩ := gchar row col hrow0 hcol0
      have hcongr := cellWritten_congr inside explored res final
        (CellMap.from_raster
          (bgrid.map (fun e => if e then LocationType.Unexplored
              else LocationType.OutOfMap)) res offset) row col gidx
      simp only [Option.getD_some]
      constructor
      · intro hw
        exact w1 (hcongr.mp hw)
      · intro hnw
        rw [w2 (fun hc => hnw (hcongr.mpr hc))]
        exact hm0get row col hrow0 hcol0

/-- Witness for C7: the spec's triangle `(0,0,0),(4,4,0),(8,0,0)` at
uniform resolution 1 with no explored sub-regions, under an arbitrary
concrete membership test. -/
theorem to_cell_map_characterization_witness :
    (3 ≤ ([RealWorldLocation.from_xyz 0 0 0, RealWorldLocation.from_xyz 4 4 0,
        RealWorldLocation.from_xyz 8 0 0] : List RealWorldLocation).length) ∧
    (0 : ℚ) ≤ (AxisResolution.uniform 1).x ∧
    ∃ final bgrid offset,
      rasterize_polygon (fun _ _ _ => true)
        ([RealWorldLocation.from_xyz 0 0 0, RealWorldLocation.from_xyz 4 4 0,
          RealWorldLocation.from_xyz 8 0 0] : List RealWorldLocation)
        (AxisResolution.uniform 1) = some (bgrid, offset) ∧
      PolygonMap.to_cell_map (fun _ _ _ => true)
        ⟨[RealWorldLocation.from_xyz 0 0 0, RealWorldLocation.from_xyz 4 4 0,
          RealWorldLocation.from_xyz 8 0 0], none⟩
        (AxisResolution.uniform 1) = some final ∧
      final.offset = offset ∧
      final.resolution = AxisResolution.uniform 1 ∧
      final.cells.nrows = bgrid.nrows ∧
      final.cells.ncols = bgrid.ncols ∧
      (∀ row col, row < bgrid.nrows → col < bgrid.ncols →
        bgrid.get row col
          = (fun (_ : List (ℚ × ℚ)) (_ _ : ℕ) => true)
              (internal_vertices
                [RealWorldLocation.from_xyz 0 0 0,
                 RealWorldLocation.from_xyz 4 4 0,
                 RealWorldLocation.from_xyz 8 0 0] offset
                (AxisResolution.uniform 1)) row col) ∧
      (∀ row col, row < final.cells.nrows → col < final.cells.ncols →
        (cellWritten (fun _ _ _ => true) ((none : Option (List (List RealWorldLocation))).getD [])
            (AxisResolution.uniform 1) final row col →
          final.cells.get row col = .Explored) ∧
        (¬ cellWritten (fun _ _ _ => true) ((none : Option (List (List RealWorldLocation))).getD [])
            (AxisResolution.uniform 1) final row col →
          final.cells.get row col
            = if bgrid.get row col then LocationType.Unexplored
              else LocationType.OutOfMap)) :=
  ⟨by norm_num, by norm_num [AxisResolution.uniform],
   to_cell_map_characterization (fun _ _ _ => true)
     ⟨[RealWorldLocation.from_xyz 0 0 0, RealWorldLocation.from_xyz 4 4 0,
       RealWorldLocation.from_xyz 8 0 0], none⟩
     (AxisResolution.uniform 1) (by norm_num) (by simp)
     (by norm_num [AxisResolution.uniform])
     (by norm_num [AxisResolution.uniform])⟩
